import Mathlib

/-!
Formal model of the NSE intraday analyzer (`intraday_analysis.py`).

The pipeline validates a ticker universe, fetches one-minute close-price bars
for the resolved trading session, derives per-ticker statistics (returns,
volatility, risk-adjusted return, standardized score) and classifies each
ticker as Buy / Avoid / Neutral.  Prices and statistics are modelled over the
real numbers; the concurrent completion order of per-ticker tasks is modelled
as an explicit permutation parameter; the network-facing validation probe and
the per-ticker task outcome are modelled as oracles.
-/

namespace Intraday

/-- Tickers are opaque string identifiers. -/
abbrev Ticker := String

/-- Minimum number of intraday bars required for analysis (`Config.MIN_DATA_POINTS`). -/
def MIN_DATA_POINTS : ℕ := 60

/-- Arithmetic mean of a list of reals (`np.mean`). -/
noncomputable def mean (l : List ℝ) : ℝ := l.sum / (l.length : ℝ)

/-- Population variance of a list of reals (square of `np.std`, ddof = 0). -/
noncomputable def variance_pop (l : List ℝ) : ℝ :=
  (l.map fun x => (x - mean l) ^ 2).sum / (l.length : ℝ)

/-- Population standard deviation (`np.std`, ddof = 0), used as the
denominator of the standardized score at line 143. -/
noncomputable def std_pop (l : List ℝ) : ℝ := Real.sqrt (variance_pop l)

/-- Sample variance of a list of reals (square of pandas `Series.std()`, ddof = 1). -/
noncomputable def variance_sample (l : List ℝ) : ℝ :=
  (l.map fun x => (x - mean l) ^ 2).sum / ((l.length : ℝ) - 1)

/-- Sample standard deviation (pandas `Series.std()`, ddof = 1), used as the
volatility at line 135. -/
noncomputable def std_sample (l : List ℝ) : ℝ := Real.sqrt (variance_sample l)

/-- Per-bar fractional returns of a close-price series:
`pct_change().dropna()` on the Close column at line 134.  Element i is
(p_(i+1) - p_i) / p_i, one element per consecutive pair. -/
noncomputable def pct_change_dropna (ps : List ℝ) : List ℝ :=
  List.zipWith (fun prev cur => (cur - prev) / prev) ps ps.tail

/-- Record produced for a fully analyzed ticker (the dict returned at
lines 146-153, with the field names used by the spec). -/
structure AnalysisResult where
  ticker : Ticker
  current_price : ℝ
  daily_return_pct : ℝ
  volatility : ℝ
  risk_adjusted_return : ℝ
  standardized_score : ℝ

/-- Per-ticker analysis stage (`FinancialAnalytics._process_single_ticker`)
applied to the fetched close-price series: `none` models the Python `None`
returned on insufficient data. -/
noncomputable def process_single_ticker (ticker : Ticker) (data : List ℝ) :
    Option AnalysisResult :=
  if data.length < MIN_DATA_POINTS then none
  else
    let returns := pct_change_dropna data
    let volatility := std_sample returns
    let current_price := data.getLastD 0
    let open_price := data.headD 0
    let daily_return_pct := (current_price - open_price) / open_price * 100
    let risk_adj_return := if volatility ≠ 0 then daily_return_pct / volatility else 0
    let market_mean := mean returns
    let market_std := std_pop returns
    let z_score := if market_std ≠ 0 then (daily_return_pct - market_mean) / market_std else 0
    some ⟨ticker, current_price, daily_return_pct, volatility, risk_adj_return, z_score⟩

/-- Recommendation label (`AnalyticsReporter.generate_report`, the nested
`np.where` at lines 181-189) as a function of the standardized score and the
risk-adjusted return. -/
noncomputable def recommendation (z ra : ℝ) : String :=
  if 1 < z ∧ 0 < ra then "Buy"
  else if z < -1 ∧ ra < 0 then "Avoid"
  else "Neutral"

/-- Outcome of one per-ticker fetch-then-analyze task as observed by the
`process_market` collection loop: a produced result, a `None` return
(insufficient data), or a raised exception. -/
inductive TaskOutcome where
  | success (r : AnalysisResult)
  | insufficient
  | failed

/-- Whether a task outcome produced a result. -/
def TaskOutcome.isSuccess : TaskOutcome → Bool
  | .success _ => true
  | _ => false

/-- The result carried by a successful task outcome, if any. -/
def TaskOutcome.result : TaskOutcome → Option AnalysisResult
  | .success r => some r
  | _ => none

/-- Aggregate of one pipeline run (the triple returned at line 126). -/
structure BatchOutcome where
  results : List AnalysisResult
  skipped : List Ticker
  invalid_count : ℕ

/-- The `as_completed` collection loop of `process_market` (lines 113-124):
tasks complete in the order given by `completion`; a successful outcome is
appended to `results`, anything else appends the ticker to `skipped`. -/
def collect_outcomes (task : Ticker → TaskOutcome) (completion : List Ticker) :
    List AnalysisResult × List Ticker :=
  completion.foldl
    (fun acc t =>
      match task t with
      | .success r => (acc.1 ++ [r], acc.2)
      | _ => (acc.1, acc.2 ++ [t]))
    ([], [])

/-- Whole pipeline run (`FinancialAnalytics.process_market`): validation keeps
the tickers passing the probe `validate`; the surviving tickers are processed
concurrently and collected in completion order; the invalid count is the
number of tickers dropped by validation. -/
def process_market (validate : Ticker → Bool) (task : Ticker → TaskOutcome)
    (all_tickers completion : List Ticker) : BatchOutcome :=
  ⟨(collect_outcomes task completion).1,
   (collect_outcomes task completion).2,
   all_tickers.length - (all_tickers.filter validate).length⟩

/-- Provider response to one intraday-bars request: either bars or a raised
error (network, timeout, malformed response). -/
inductive FetchResponse where
  | ok (data : List ℝ)
  | err (msg : String)

/-- Fetch stage (`MarketDataProcessor.fetch_intraday_data`, lines 76-87): the
response of the single request is returned as-is on success, and any error is
caught and converted to the empty series. -/
def fetch_intraday_data : FetchResponse → List ℝ
  | .ok d => d
  | .err _ => []

/-- Fetch against a stream of available provider responses: exactly the first
response is consumed (one attempt, no retry). -/
def fetch_from_stream : List FetchResponse → List ℝ
  | [] => []
  | r :: _ => fetch_intraday_data r

/-- The fetch-then-analyze task submitted per ticker, classified the way the
collection loop sees it. -/
noncomputable def ticker_task (fetch : Ticker → List ℝ) (t : Ticker) : TaskOutcome :=
  match process_single_ticker t (fetch t) with
  | some r => TaskOutcome.success r
  | none => TaskOutcome.insufficient

/-- Python weekday of an epoch-relative day index, with day 0 a Monday, so
Monday = 0, ..., Sunday = 6. -/
def weekday (d : ℤ) : ℤ := d % 7

/-- Timezone-aware instant reduced to its local day index and local time. -/
structure Instant where
  day : ℤ
  hour : ℕ
  minute : ℕ

/-- Stepping back to the most recent Monday lands on a weekday. -/
def weekday_prev_step (d : ℤ) : weekday (d - (↑(((d - 1) % 7).toNat) + 1)) < 5 := by
  have h0 : (0 : ℤ) ≤ (d - 1) % 7 := Int.emod_nonneg _ (by norm_num)
  have hc : (↑(((d - 1) % 7).toNat) : ℤ) = (d - 1) % 7 := Int.toNat_of_nonneg h0
  unfold weekday
  rw [hc, show d - ((d - 1) % 7 + 1) = (d - 1) - (d - 1) % 7 by ring, Int.sub_emod,
    Int.emod_emod_of_dvd _ dvd_rfl, sub_self]
  norm_num

/-- Among the seven days at or before yesterday there is a weekday: the
termination witness for the backward walk of `_get_market_day`. -/
def exists_prev_weekday (d : ℤ) : ∃ δ : ℕ, weekday (d - (↑δ + 1)) < 5 :=
  ⟨((d - 1) % 7).toNat, weekday_prev_step d⟩

/-- The condition under which `_get_market_day` walks backward (line 59):
weekend, or local hour before 9 or at/after 16. -/
def off_session (now : Instant) : Prop :=
  5 ≤ weekday now.day ∨ now.hour < 9 ∨ 16 ≤ now.hour

instance (now : Instant) : Decidable (off_session now) := by
  unfold off_session
  infer_instance

/-- Session-date resolution (`MarketDataProcessor._get_market_day`): when
`off_session` holds, walk back one day at a time starting from yesterday
until a weekday is found (the `while True` loop, modelled as the least
positive delta reaching a weekday); otherwise keep the date of now. -/
def get_market_day (now : Instant) : ℤ :=
  if off_session now then
    now.day - (↑(Nat.find (exists_prev_weekday now.day)) + 1)
  else now.day

/-- Session open and close (`MarketDataProcessor._get_market_hours`) as
minutes since midnight of epoch day 0: 09:15 and 15:30 local time on the
given session date. -/
def get_market_hours (date : ℤ) : ℤ × ℤ :=
  (date * 1440 + (9 * 60 + 15), date * 1440 + (15 * 60 + 30))

/-- Day on which an epoch-minute timestamp falls. -/
def minute_day (ts : ℤ) : ℤ := ts / 1440

/-- Latest weekday at or before a given day: the wording used by the
Session invariant of the spec. -/
def latest_weekday_on_or_before (d : ℤ) : ℤ :=
  if weekday d < 5 then d else d - (↑(Nat.find (exists_prev_weekday d)) + 1)

/-- Session date exactly as the Session invariant of the spec words it: the
own date of now when now is a weekday within session hours (09:15 to 15:30); otherwise
the latest weekday at or before now. -/
def claim_session_date (now : Instant) : ℤ :=
  if weekday now.day < 5 ∧ 9 * 60 + 15 ≤ now.hour * 60 + now.minute ∧
      now.hour * 60 + now.minute < 15 * 60 + 30 then
    now.day
  else latest_weekday_on_or_before now.day

/-- Whole-session percent return as the spec words it:
(last close − first close) / first close × 100. -/
noncomputable def spec_daily_return_pct (data : List ℝ) : ℝ :=
  (data.getLastD 0 - data.headD 0) / data.headD 0 * 100

/-- Standardized score as the spec words it: (daily_return_pct − mean of the
return sequence) / population std of the return sequence when that std is
nonzero, else 0, the return sequence being the per-bar fractional returns of
the series of the same ticker. -/
noncomputable def spec_standardized_score (data : List ℝ) : ℝ :=
  if std_pop (pct_change_dropna data) = 0 then 0
  else (spec_daily_return_pct data - mean (pct_change_dropna data)) /
    std_pop (pct_change_dropna data)

/-- Unfolding of the collection loop: the results are the successes in
completion order and the skipped list is the non-successes in completion
order. -/
theorem collect_outcomes_eq (task : Ticker → TaskOutcome) (completion : List Ticker) :
    collect_outcomes task completion =
      (completion.filterMap fun t => (task t).result,
       completion.filter fun t => !(task t).isSuccess) := by
  suffices h : ∀ (l : List Ticker) (a : List AnalysisResult) (b : List Ticker),
      l.foldl (fun acc t => match task t with
        | .success r => (acc.1 ++ [r], acc.2)
        | _ => (acc.1, acc.2 ++ [t])) (a, b) =
      (a ++ l.filterMap fun t => (task t).result,
       b ++ l.filter fun t => !(task t).isSuccess) by
    simpa [collect_outcomes] using h completion [] []
  intro l
  induction l with
  | nil => intro a b; simp
  | cons t l ih =>
    intro a b
    cases h : task t with
    | success r =>
      simp [h, ih, TaskOutcome.result, TaskOutcome.isSuccess, List.filterMap_cons,
        List.filter_cons]
    | insufficient =>
      simp [h, ih, TaskOutcome.result, TaskOutcome.isSuccess, List.filterMap_cons,
        List.filter_cons]
    | failed =>
      simp [h, ih, TaskOutcome.result, TaskOutcome.isSuccess, List.filterMap_cons,
        List.filter_cons]

/-- One result is produced per successful task. -/
theorem length_filterMap_result (task : Ticker → TaskOutcome) (l : List Ticker) :
    (l.filterMap fun t => (task t).result).length =
      (l.filter fun t => (task t).isSuccess).length := by
  induction l with
  | nil => rfl
  | cons t l ih =>
    cases h : task t with
    | success r =>
      have h1 : List.filterMap (fun t => (task t).result) (t :: l) =
          r :: List.filterMap (fun t => (task t).result) l := by
        simp [List.filterMap_cons, h, TaskOutcome.result]
      have h2 : List.filter (fun t => (task t).isSuccess) (t :: l) =
          t :: List.filter (fun t => (task t).isSuccess) l := by
        simp [List.filter_cons, h, TaskOutcome.isSuccess]
      rw [h1, h2, List.length_cons, List.length_cons, ih]
    | insufficient =>
      have h1 : List.filterMap (fun t => (task t).result) (t :: l) =
          List.filterMap (fun t => (task t).result) l := by
        simp [List.filterMap_cons, h, TaskOutcome.result]
      have h2 : List.filter (fun t => (task t).isSuccess) (t :: l) =
          List.filter (fun t => (task t).isSuccess) l := by
        simp [List.filter_cons, h, TaskOutcome.isSuccess]
      rw [h1, h2, ih]
    | failed =>
      have h1 : List.filterMap (fun t => (task t).result) (t :: l) =
          List.filterMap (fun t => (task t).result) l := by
        simp [List.filterMap_cons, h, TaskOutcome.result]
      have h2 : List.filter (fun t => (task t).isSuccess) (t :: l) =
          List.filter (fun t => (task t).isSuccess) l := by
        simp [List.filter_cons, h, TaskOutcome.isSuccess]
      rw [h1, h2, ih]

/-- A boolean predicate splits a list into two counts. -/
theorem length_filter_split (p : Ticker → Bool) (l : List Ticker) :
    (l.filter fun t => p t).length + (l.filter fun t => !p t).length = l.length := by
  induction l with
  | nil => rfl
  | cons t l ih => cases h : p t <;> simp [List.filter_cons, h] <;> omega

/-- C1: every input ticker is accounted for in exactly one of results,
skipped, invalid_count: the input count equals the sum of the three buckets,
the task of every skipped ticker was a non-success (so it contributed no result),
every non-successful completed ticker lands in skipped, and the results are
exactly the successes. -/
theorem process_market_partition (validate : Ticker → Bool) (task : Ticker → TaskOutcome)
    (all_tickers completion : List Ticker)
    (hperm : completion.Perm (all_tickers.filter validate)) :
    (process_market validate task all_tickers completion).results.length +
        (process_market validate task all_tickers completion).skipped.length +
        (process_market validate task all_tickers completion).invalid_count =
      all_tickers.length ∧
    (∀ t ∈ (process_market validate task all_tickers completion).skipped,
      (task t).isSuccess = false) ∧
    (∀ t ∈ completion, (task t).isSuccess = false →
      t ∈ (process_market validate task all_tickers completion).skipped) ∧
    (process_market validate task all_tickers completion).results.length =
      (completion.filter fun t => (task t).isSuccess).length := by
  have hco := collect_outcomes_eq task completion
  have e1 := length_filterMap_result task completion
  have e2 := length_filter_split (fun t => (task t).isSuccess) completion
  have e3 : completion.length = (all_tickers.filter validate).length := hperm.length_eq
  have e4 : (all_tickers.filter validate).length ≤ all_tickers.length :=
    List.length_filter_le _ _
  refine ⟨?_, ?_, ?_, ?_⟩
  · simp only [process_market, hco]
    omega
  · intro t ht
    simp only [process_market, hco] at ht
    simpa using (List.mem_filter.mp ht).2
  · intro t ht hf
    simp only [process_market, hco]
    exact List.mem_filter.mpr ⟨ht, by simp [hf]⟩
  · simp only [process_market, hco]
    exact e1

/-- C1 witness: a concrete two-ticker run satisfying the permutation
hypothesis. -/
theorem process_market_partition_witness :
    (["B", "A"] : List Ticker).Perm ((["A", "B"] : List Ticker).filter fun _ => true) ∧
    (process_market (fun _ => true) (fun _ => TaskOutcome.insufficient)
          ["A", "B"] ["B", "A"]).results.length +
        (process_market (fun _ => true) (fun _ => TaskOutcome.insufficient)
          ["A", "B"] ["B", "A"]).skipped.length +
        (process_market (fun _ => true) (fun _ => TaskOutcome.insufficient)
          ["A", "B"] ["B", "A"]).invalid_count =
      (["A", "B"] : List Ticker).length :=
  ⟨by decide,
   (process_market_partition (fun _ => true) (fun _ => TaskOutcome.insufficient)
      ["A", "B"] ["B", "A"] (by decide)).1⟩

/-- C8: the batch outcome does not depend on the completion order of the
per-ticker tasks: any two completion orders of the same valid set give
permutation-equal results, permutation-equal skipped lists and the same
invalid count. -/
theorem process_market_order_independent (validate : Ticker → Bool)
    (task : Ticker → TaskOutcome) (all_tickers o₁ o₂ : List Ticker)
    (h₁ : o₁.Perm (all_tickers.filter validate))
    (h₂ : o₂.Perm (all_tickers.filter validate)) :
    (process_market validate task all_tickers o₁).results.Perm
      (process_market validate task all_tickers o₂).results ∧
    (process_market validate task all_tickers o₁).skipped.Perm
      (process_market validate task all_tickers o₂).skipped ∧
    (process_market validate task all_tickers o₁).invalid_count =
      (process_market validate task all_tickers o₂).invalid_count := by
  have h12 : o₁.Perm o₂ := h₁.trans h₂.symm
  simp only [process_market, collect_outcomes_eq]
  exact ⟨h12.filterMap _, h12.filter _, trivial⟩

/-- C8 witness: two concrete completion orders of the same valid set. -/
theorem process_market_order_independent_witness :
    (["A", "B"] : List Ticker).Perm ((["A", "B"] : List Ticker).filter fun _ => true) ∧
    (["B", "A"] : List Ticker).Perm ((["A", "B"] : List Ticker).filter fun _ => true) ∧
    ((process_market (fun _ => true) (fun _ => TaskOutcome.insufficient)
        ["A", "B"] ["A", "B"]).results.Perm
      (process_market (fun _ => true) (fun _ => TaskOutcome.insufficient)
        ["A", "B"] ["B", "A"]).results ∧
    (process_market (fun _ => true) (fun _ => TaskOutcome.insufficient)
        ["A", "B"] ["A", "B"]).skipped.Perm
      (process_market (fun _ => true) (fun _ => TaskOutcome.insufficient)
        ["A", "B"] ["B", "A"]).skipped ∧
    (process_market (fun _ => true) (fun _ => TaskOutcome.insufficient)
        ["A", "B"] ["A", "B"]).invalid_count =
      (process_market (fun _ => true) (fun _ => TaskOutcome.insufficient)
        ["A", "B"] ["B", "A"]).invalid_count) :=
  ⟨by decide, by decide,
   process_market_order_independent (fun _ => true) (fun _ => TaskOutcome.insufficient)
     ["A", "B"] ["A", "B"] ["B", "A"] (by decide) (by decide)⟩

/-- C2: the recommendation is a pure function of the pair; Buy exactly when
the score exceeds 1 and the risk-adjusted return is positive, Avoid exactly
when the score is below -1 and the risk-adjusted return negative, Neutral
otherwise, with strict comparisons, so score 1 with return 1 is Neutral. -/
theorem recommendation_classification (z ra : ℝ) :
    (recommendation z ra = "Buy" ↔ 1 < z ∧ 0 < ra) ∧
    (recommendation z ra = "Avoid" ↔ z < -1 ∧ ra < 0) ∧
    (recommendation z ra = "Neutral" ↔ ¬(1 < z ∧ 0 < ra) ∧ ¬(z < -1 ∧ ra < 0)) ∧
    recommendation 1 1 = "Neutral" := by
  refine ⟨?_, ?_, ?_, ?_⟩
  · unfold recommendation
    split_ifs with h1 h2
    · exact iff_of_true rfl h1
    · exact iff_of_false (by decide) h1
    · exact iff_of_false (by decide) h1
  · unfold recommendation
    split_ifs with h1 h2
    · exact iff_of_false (by decide) fun h => by linarith [h1.1, h.1]
    · exact iff_of_true rfl h2
    · exact iff_of_false (by decide) h2
  · unfold recommendation
    split_ifs with h1 h2
    · exact iff_of_false (by decide) fun h => h.1 h1
    · exact iff_of_false (by decide) fun h => h.2 h2
    · exact iff_of_true rfl ⟨h1, h2⟩
  · unfold recommendation
    rw [if_neg (by norm_num), if_neg (by norm_num)]

/-- C3: a fetched series with fewer than MIN_DATA_POINTS bars makes the
per-ticker analysis return none, whatever the prices, and the ticker is then
collected into skipped whenever its task completes. -/
theorem insufficient_data_skipped (fetch : Ticker → List ℝ) (tk : Ticker)
    (h : (fetch tk).length < MIN_DATA_POINTS) :
    process_single_ticker tk (fetch tk) = none ∧
    ∀ completion : List Ticker, tk ∈ completion →
      tk ∈ (collect_outcomes (ticker_task fetch) completion).2 := by
  have hnone : process_single_ticker tk (fetch tk) = none := by
    unfold process_single_ticker
    rw [if_pos h]
  refine ⟨hnone, fun completion hmem => ?_⟩
  rw [collect_outcomes_eq]
  refine List.mem_filter.mpr ⟨hmem, ?_⟩
  simp [ticker_task, hnone, TaskOutcome.isSuccess]

/-- C3 witness: an empty fetched series for a concrete ticker. -/
theorem insufficient_data_skipped_witness :
    ((fun _ : Ticker => ([] : List ℝ)) "A").length < MIN_DATA_POINTS ∧
    (process_single_ticker "A" ((fun _ : Ticker => ([] : List ℝ)) "A") = none ∧
      ∀ completion : List Ticker, "A" ∈ completion →
        "A" ∈ (collect_outcomes (ticker_task fun _ : Ticker => ([] : List ℝ))
          completion).2) :=
  ⟨by simp [MIN_DATA_POINTS],
   insufficient_data_skipped (fun _ => []) "A" (by simp [MIN_DATA_POINTS])⟩

/-- C7: the fetch consumes exactly the first provider response (one attempt,
the rest of the stream is irrelevant), converts an error response into the
empty series instead of propagating, and the empty series degrades to the
insufficient-data outcome downstream. -/
theorem fetch_single_attempt_degrades (tk : Ticker) (r : FetchResponse)
    (rest₁ rest₂ : List FetchResponse) (e : String) :
    fetch_from_stream (r :: rest₁) = fetch_intraday_data r ∧
    fetch_from_stream (r :: rest₁) = fetch_from_stream (r :: rest₂) ∧
    fetch_intraday_data (FetchResponse.err e) = [] ∧
    process_single_ticker tk (fetch_intraday_data (FetchResponse.err e)) = none ∧
    ticker_task (fun _ => fetch_intraday_data (FetchResponse.err e)) tk =
      TaskOutcome.insufficient := by
  have hnone : process_single_ticker tk ([] : List ℝ) = none := by
    unfold process_single_ticker
    rw [if_pos (by simp [MIN_DATA_POINTS])]
  refine ⟨rfl, rfl, rfl, hnone, ?_⟩
  simp [ticker_task, fetch_intraday_data, hnone]

/-- Zipping a constant list with the constant list one shorter. -/
theorem zipWith_replicate_succ (f : ℝ → ℝ → ℝ) (c : ℝ) (m : ℕ) :
    List.zipWith f (List.replicate (m + 1) c) (List.replicate m c) =
      List.replicate m (f c c) := by
  induction m with
  | zero => rfl
  | succ k ih =>
    show List.zipWith f (c :: List.replicate (k + 1) c) (c :: List.replicate k c) =
      f c c :: List.replicate k (f c c)
    rw [List.zipWith_cons_cons, ih]

/-- Returns of a constant series are all zero. -/
theorem pct_change_dropna_replicate (n : ℕ) (c : ℝ) :
    pct_change_dropna (List.replicate n c) = List.replicate (n - 1) (0 : ℝ) := by
  cases n with
  | zero => rfl
  | succ m =>
    unfold pct_change_dropna
    rw [show (List.replicate (m + 1) c).tail = List.replicate m c by
      rw [List.replicate_succ]; rfl]
    rw [zipWith_replicate_succ]
    simp [sub_self]

/-- Mean of an all-zero list. -/
theorem mean_replicate_zero (m : ℕ) : mean (List.replicate m (0 : ℝ)) = 0 := by
  unfold mean
  rw [List.sum_replicate]
  simp

/-- Population variance of an all-zero list. -/
theorem variance_pop_replicate_zero (m : ℕ) :
    variance_pop (List.replicate m (0 : ℝ)) = 0 := by
  unfold variance_pop
  rw [mean_replicate_zero, List.map_replicate]
  simp [List.sum_replicate]

/-- Sample variance of an all-zero list. -/
theorem variance_sample_replicate_zero (m : ℕ) :
    variance_sample (List.replicate m (0 : ℝ)) = 0 := by
  unfold variance_sample
  rw [mean_replicate_zero, List.map_replicate]
  simp [List.sum_replicate]

/-- Population standard deviation of an all-zero list. -/
theorem std_pop_replicate_zero (m : ℕ) : std_pop (List.replicate m (0 : ℝ)) = 0 := by
  rw [std_pop, variance_pop_replicate_zero, Real.sqrt_zero]

/-- Sample standard deviation of an all-zero list. -/
theorem std_sample_replicate_zero (m : ℕ) :
    std_sample (List.replicate m (0 : ℝ)) = 0 := by
  rw [std_sample, variance_sample_replicate_zero, Real.sqrt_zero]

/-- First element of a nonempty constant list. -/
theorem headD_replicate (m : ℕ) (c : ℝ) : (List.replicate (m + 1) c).headD 0 = c := by
  rw [List.replicate_succ]
  rfl

/-- Last element of a nonempty constant list, for any default. -/
theorem getLastD_replicate (m : ℕ) (c : ℝ) :
    ∀ d : ℝ, (List.replicate (m + 1) c).getLastD d = c := by
  induction m with
  | zero => intro d; rfl
  | succ k ih =>
    intro d
    rw [List.replicate_succ, List.getLastD_cons]
    exact ih c

/-- Full evaluation of the analysis stage on a constant series of sufficient
length: every statistic degenerates to zero. -/
theorem process_single_ticker_replicate (tk : Ticker) (n : ℕ) (c : ℝ)
    (h : MIN_DATA_POINTS ≤ n) :
    process_single_ticker tk (List.replicate n c) =
      some ⟨tk, c, 0, 0, 0, 0⟩ := by
  obtain ⟨m, rfl⟩ : ∃ m, n = m + 1 := ⟨n - 1, by simp [MIN_DATA_POINTS] at h; omega⟩
  have hret : pct_change_dropna (List.replicate (m + 1) c) = List.replicate m 0 := by
    rw [pct_change_dropna_replicate]
    simp
  unfold process_single_ticker
  rw [if_neg (by rw [List.length_replicate]; omega)]
  simp only [hret, std_sample_replicate_zero, std_pop_replicate_zero, mean_replicate_zero,
    getLastD_replicate, headD_replicate]
  simp [sub_self]

/-- C6: a constant close-price series of sufficient length yields zero
volatility and zero risk-adjusted return, and in general the risk-adjusted
return of any produced result is the daily percent return divided by the
volatility when the volatility is nonzero, else zero. -/
theorem constant_series_risk (tk : Ticker) (n : ℕ) (c : ℝ) (data : List ℝ)
    (h : MIN_DATA_POINTS ≤ n) :
    (process_single_ticker tk (List.replicate n c)).map
        (fun r => (r.volatility, r.risk_adjusted_return)) = some (0, 0) ∧
    ∀ r : AnalysisResult, process_single_ticker tk data = some r →
      r.risk_adjusted_return =
        if r.volatility ≠ 0 then r.daily_return_pct / r.volatility else 0 := by
  constructor
  · rw [process_single_ticker_replicate tk n c h]
    rfl
  · intro r hr
    unfold process_single_ticker at hr
    by_cases hlen : data.length < MIN_DATA_POINTS
    · rw [if_pos hlen] at hr
      exact absurd hr (by simp)
    · rw [if_neg hlen] at hr
      injection hr with hr
      subst hr
      rfl

/-- C6 witness: the constant unit-price series of exactly 60 bars. -/
theorem constant_series_risk_witness :
    MIN_DATA_POINTS ≤ 60 ∧
    ((process_single_ticker "A" (List.replicate 60 (1 : ℝ))).map
        (fun r => (r.volatility, r.risk_adjusted_return)) = some (0, 0) ∧
      ∀ r : AnalysisResult, process_single_ticker "A" (List.replicate 60 (1 : ℝ)) = some r →
        r.risk_adjusted_return =
          if r.volatility ≠ 0 then r.daily_return_pct / r.volatility else 0) :=
  ⟨by decide, constant_series_risk "A" 60 1 (List.replicate 60 1) (by decide)⟩

/-- Explicit form of the analysis record on a sufficiently long series. -/
theorem process_single_ticker_eq (tk : Ticker) (data : List ℝ)
    (h : ¬data.length < MIN_DATA_POINTS) :
    process_single_ticker tk data =
      some ⟨tk, data.getLastD 0,
        (data.getLastD 0 - data.headD 0) / data.headD 0 * 100,
        std_sample (pct_change_dropna data),
        if std_sample (pct_change_dropna data) ≠ 0 then
          (data.getLastD 0 - data.headD 0) / data.headD 0 * 100 /
            std_sample (pct_change_dropna data)
        else 0,
        if std_pop (pct_change_dropna data) ≠ 0 then
          ((data.getLastD 0 - data.headD 0) / data.headD 0 * 100 -
              mean (pct_change_dropna data)) / std_pop (pct_change_dropna data)
        else 0⟩ := by
  unfold process_single_ticker
  rw [if_neg h]

/-- C4: on any sufficiently long series the produced standardized score is
exactly the spec formula: (whole-session percent return minus the mean of the
per-bar fractional returns of the same series) divided by the population
standard deviation of those returns when that std is nonzero, else zero; and
the produced daily percent return is the whole-session percent return. -/
theorem standardized_score_eq_spec (tk : Ticker) (data : List ℝ)
    (h : MIN_DATA_POINTS ≤ data.length) :
    (process_single_ticker tk data).map (fun r => r.standardized_score) =
      some (spec_standardized_score data) ∧
    (process_single_ticker tk data).map (fun r => r.daily_return_pct) =
      some (spec_daily_return_pct data) := by
  rw [process_single_ticker_eq tk data (by omega)]
  unfold spec_standardized_score spec_daily_return_pct
  refine ⟨?_, rfl⟩
  by_cases hstd : std_pop (pct_change_dropna data) = 0
  · rw [if_neg (not_not_intro hstd), if_pos hstd]
    rfl
  · rw [if_pos hstd, if_neg hstd]
    rfl

/-- C4 witness: the constant unit-price series of exactly 60 bars. -/
theorem standardized_score_eq_spec_witness :
    MIN_DATA_POINTS ≤ (List.replicate 60 (1 : ℝ)).length ∧
    ((process_single_ticker "A" (List.replicate 60 (1 : ℝ))).map
        (fun r => r.standardized_score) =
      some (spec_standardized_score (List.replicate 60 (1 : ℝ))) ∧
    (process_single_ticker "A" (List.replicate 60 (1 : ℝ))).map
        (fun r => r.daily_return_pct) =
      some (spec_daily_return_pct (List.replicate 60 (1 : ℝ)))) :=
  ⟨by decide, standardized_score_eq_spec "A" (List.replicate 60 1) (by decide)⟩

/-- The summed squared deviations of a list are nonnegative. -/
theorem sq_dev_sum_nonneg (rs : List ℝ) :
    0 ≤ (rs.map fun x => (x - mean rs) ^ 2).sum := by
  apply List.sum_nonneg
  intro x hx
  obtain ⟨a, _, rfl⟩ := List.mem_map.mp hx
  exact sq_nonneg _

/-- C10: the volatility is the ddof-1 sample standard deviation and the
standardized-score denominator is the ddof-0 population standard deviation of
the same return sequence, so their squares satisfy the (n-1) versus n scaling
identity, and on a sequence of length at least 2 with nonzero variance the
two are never equal; moreover the volatility field of every produced result really
is the sample standard deviation of the return sequence of the series. -/
theorem std_conventions (rs : List ℝ) (h2 : 2 ≤ rs.length)
    (hv : variance_pop rs ≠ 0) :
    std_sample rs ^ 2 * ((rs.length : ℝ) - 1) = std_pop rs ^ 2 * (rs.length : ℝ) ∧
    std_sample rs ≠ std_pop rs ∧
    ∀ (tk : Ticker) (data : List ℝ) (r : AnalysisResult),
      process_single_ticker tk data = some r →
      r.volatility = std_sample (pct_change_dropna data) := by
  set S := (rs.map fun x => (x - mean rs) ^ 2).sum with hS
  have hS0 : 0 ≤ S := sq_dev_sum_nonneg rs
  have hn : (2 : ℝ) ≤ (rs.length : ℝ) := by exact_mod_cast h2
  have hn1 : (0 : ℝ) < (rs.length : ℝ) - 1 := by linarith
  have hn0 : (0 : ℝ) < (rs.length : ℝ) := by linarith
  have hSne : S ≠ 0 := by
    intro hzero
    apply hv
    unfold variance_pop
    rw [← hS, hzero, zero_div]
  have hvs : variance_sample rs = S / ((rs.length : ℝ) - 1) := rfl
  have hvp : variance_pop rs = S / (rs.length : ℝ) := rfl
  have hvs0 : 0 ≤ variance_sample rs := by
    rw [hvs]
    exact div_nonneg hS0 (le_of_lt hn1)
  have hvp0 : 0 ≤ variance_pop rs := by
    rw [hvp]
    exact div_nonneg hS0 (le_of_lt hn0)
  refine ⟨?_, ?_, ?_⟩
  · rw [std_sample, std_pop, Real.sq_sqrt hvs0, Real.sq_sqrt hvp0, hvs, hvp,
      div_mul_cancel₀ _ (ne_of_gt hn1), div_mul_cancel₀ _ (ne_of_gt hn0)]
  · intro heq
    have hveq : variance_sample rs = variance_pop rs :=
      (Real.sqrt_inj hvs0 hvp0).mp heq
    rw [hvs, hvp, div_eq_div_iff (ne_of_gt hn1) (ne_of_gt hn0)] at hveq
    apply hSne
    nlinarith [hveq]
  · intro tk data r hr
    unfold process_single_ticker at hr
    by_cases hlen : data.length < MIN_DATA_POINTS
    · rw [if_pos hlen] at hr
      exact absurd hr (by simp)
    · rw [if_neg hlen] at hr
      injection hr with hr
      subst hr
      rfl

/-- C10 witness: the two-element return sequence 0, 1. -/
theorem std_conventions_witness :
    2 ≤ ([0, 1] : List ℝ).length ∧ variance_pop ([0, 1] : List ℝ) ≠ 0 ∧
    (std_sample ([0, 1] : List ℝ) ^ 2 * ((([0, 1] : List ℝ).length : ℝ) - 1) =
        std_pop ([0, 1] : List ℝ) ^ 2 * (([0, 1] : List ℝ).length : ℝ) ∧
      std_sample ([0, 1] : List ℝ) ≠ std_pop ([0, 1] : List ℝ) ∧
      ∀ (tk : Ticker) (data : List ℝ) (r : AnalysisResult),
        process_single_ticker tk data = some r →
        r.volatility = std_sample (pct_change_dropna data)) :=
  ⟨by decide, by norm_num [variance_pop, mean],
   std_conventions [0, 1] (by decide) (by norm_num [variance_pop, mean])⟩

/-- The backward walk never looks back more than seven days. -/
theorem find_prev_le_six (d : ℤ) : Nat.find (exists_prev_weekday d) ≤ 6 := by
  have h0 : (0 : ℤ) ≤ (d - 1) % 7 := Int.emod_nonneg _ (by norm_num)
  have h7 : (d - 1) % 7 < 7 := Int.emod_lt_of_pos _ (by norm_num)
  have hmin := Nat.find_min' (exists_prev_weekday d) (weekday_prev_step d)
  omega

/-- The resolved market day is always a weekday. -/
theorem market_day_weekday (now : Instant) : weekday (get_market_day now) < 5 := by
  unfold get_market_day
  split_ifs with h
  · exact Nat.find_spec (exists_prev_weekday now.day)
  · unfold off_session at h
    push_neg at h
    exact h.1

/-- The resolved market day never lies in the future. -/
theorem market_day_le (now : Instant) : get_market_day now ≤ now.day := by
  unfold get_market_day
  split_ifs with h
  · have hk : (0 : ℤ) ≤ (↑(Nat.find (exists_prev_weekday now.day)) : ℤ) := by positivity
    omega
  · omega

/-- The resolved market day is at most seven days back. -/
theorem market_day_lookback (now : Instant) : now.day - 7 ≤ get_market_day now := by
  unfold get_market_day
  split_ifs with h
  · have hk := find_prev_le_six now.day
    omega
  · omega

/-- In-session instants resolve to their own date. -/
theorem market_day_of_not_off (now : Instant) (h : ¬off_session now) :
    get_market_day now = now.day := by
  unfold get_market_day
  rw [if_neg h]

/-- Off-session instants resolve to the latest weekday strictly before their
own date: strictly earlier, and no weekday lies in between. -/
theorem market_day_off_maximal (now : Instant) (h : off_session now) :
    get_market_day now < now.day ∧
    ∀ e : ℤ, get_market_day now < e → e < now.day → 5 ≤ weekday e := by
  unfold get_market_day
  rw [if_pos h]
  constructor
  · have hk : (0 : ℤ) ≤ (↑(Nat.find (exists_prev_weekday now.day)) : ℤ) := by positivity
    omega
  · intro e h1 h2
    by_contra hlt
    push_neg at hlt
    have hδk : (now.day - e - 1).toNat < Nat.find (exists_prev_weekday now.day) := by
      omega
    apply Nat.find_min (exists_prev_weekday now.day) hδk
    have he : now.day - ((↑((now.day - e - 1).toNat) : ℤ) + 1) = e := by omega
    rw [he]
    exact hlt

/-- C9: session resolution terminates for every instant: the market day it
returns is a weekday reached by at most seven days of backward walk, so the
unbounded loop always exits, and resolution is a total function with no error
outcome. -/
theorem market_day_terminates (now : Instant) :
    weekday (get_market_day now) < 5 ∧
    now.day - 7 ≤ get_market_day now ∧ get_market_day now ≤ now.day :=
  ⟨market_day_weekday now, market_day_lookback now, market_day_le now⟩

/-- C5 counterexample: at Tuesday 17:00 (day 1 in the Monday-epoch model) the
code resolves the previous day, Monday, whereas the rule of the claim (latest
weekday at or before now) resolves Tuesday itself. -/
theorem session_date_claim_counterexample :
    get_market_day ⟨1, 17, 0⟩ ≠ claim_session_date ⟨1, 17, 0⟩ := by
  have hoff : off_session ⟨1, 17, 0⟩ := by
    unfold off_session
    decide
  have hfind : Nat.find (exists_prev_weekday (1 : ℤ)) = 0 := by
    rw [Nat.find_eq_zero]
    decide
  have h1 : get_market_day ⟨1, 17, 0⟩ = 0 := by
    unfold get_market_day
    rw [if_pos hoff]
    show (1 : ℤ) - (↑(Nat.find (exists_prev_weekday (1 : ℤ))) + 1) = 0
    rw [hfind]
    norm_num
  have h2 : claim_session_date ⟨1, 17, 0⟩ = 1 := by
    unfold claim_session_date
    rw [if_neg (by decide)]
    unfold latest_weekday_on_or_before
    rw [if_pos (by decide)]
  rw [h1, h2]
  norm_num

/-- C5 (amended): the resolved session date is always a weekday, the open
timestamp (09:15) precedes the close timestamp (15:30) and both fall on the
session date; the date is the date of now exactly when now is a weekday with
local hour in 9..15, and otherwise it is the latest weekday strictly before
the date of now (not the date of now itself, even when now is a weekday
outside those hours). -/
theorem session_resolution (now : Instant) :
    weekday (get_market_day now) < 5 ∧
    (get_market_hours (get_market_day now)).1 < (get_market_hours (get_market_day now)).2 ∧
    minute_day (get_market_hours (get_market_day now)).1 = get_market_day now ∧
    minute_day (get_market_hours (get_market_day now)).2 = get_market_day now ∧
    (¬off_session now → get_market_day now = now.day) ∧
    (off_session now → get_market_day now < now.day ∧
      ∀ e : ℤ, get_market_day now < e → e < now.day → 5 ≤ weekday e) := by
  refine ⟨market_day_weekday now, ?_, ?_, ?_, market_day_of_not_off now,
    market_day_off_maximal now⟩
  · unfold get_market_hours
    omega
  · unfold get_market_hours minute_day
    omega
  · unfold get_market_hours minute_day
    omega

/-- C5 witness: the amended statement instantiated at day 8 (a Tuesday) at 08:00 local time,
an off-session weekday morning. -/
theorem session_resolution_witness :
    weekday (get_market_day ⟨8, 8, 0⟩) < 5 ∧
    (get_market_hours (get_market_day ⟨8, 8, 0⟩)).1 <
      (get_market_hours (get_market_day ⟨8, 8, 0⟩)).2 ∧
    minute_day (get_market_hours (get_market_day ⟨8, 8, 0⟩)).1 =
      get_market_day ⟨8, 8, 0⟩ ∧
    minute_day (get_market_hours (get_market_day ⟨8, 8, 0⟩)).2 =
      get_market_day ⟨8, 8, 0⟩ ∧
    (¬off_session ⟨8, 8, 0⟩ → get_market_day ⟨8, 8, 0⟩ = (8 : ℤ)) ∧
    (off_session ⟨8, 8, 0⟩ → get_market_day ⟨8, 8, 0⟩ < (8 : ℤ) ∧
      ∀ e : ℤ, get_market_day ⟨8, 8, 0⟩ < e → e < (8 : ℤ) → 5 ≤ weekday e) :=
  session_resolution ⟨8, 8, 0⟩

end Intraday
